import Mathlib

/-!
Shallow embedding of `netlify/functions/contact.js`: the contact-form
submission pipeline (input normalization, recipient resolution, message
rendering, dispatch and error mapping).

Modelling conventions:
* JavaScript strings are modelled by `String` (operated on through their
  `List Char` data where convenient).
* `value.trim()` / `value.toLowerCase()` (JS built-ins) are modelled by
  `jsTrim` / `jsToLower` over the JS `\s` whitespace class and the ASCII
  case mapping.
* `str.replace(/x/g, rep)` for a single-character pattern `x` is modelled
  by the character-wise `replaceAllChar`.
* `String(value).split(/[,;\s]+/)` is modelled by `splitFields`, which
  splits on maximal runs of separators and produces the same boundary
  empty fields as the JS `split`.
* A JSON value that may or may not be a string (the `typeof value !==
  "string"` checks in `normalizeString` / `normalizeEmail` /
  `isLikelyEmail`) is modelled by `JsValue`; all non-string values are
  observationally identical to those checks, so they are a single
  constructor.
* A call that may throw is modelled by `Except String`; `Except.error`
  is an exception propagating to the caller.
-/

/-- Whitespace class of the JavaScript regular-expression escape `\s`
(and of `String.prototype.trim`), by code point. -/
def jsWhitespace (c : Char) : Bool :=
  (9 ≤ c.toNat && c.toNat ≤ 13) || c.toNat == 32 || c.toNat == 160 ||
  c.toNat == 0x1680 || (0x2000 ≤ c.toNat && c.toNat ≤ 0x200A) ||
  c.toNat == 0x2028 || c.toNat == 0x2029 || c.toNat == 0x202F ||
  c.toNat == 0x205F || c.toNat == 0x3000 || c.toNat == 0xFEFF

/-- ASCII case mapping of `String.prototype.toLowerCase`: uppercase ASCII
letters are shifted by 32, all other characters are unchanged. -/
def lowerChar (c : Char) : Char :=
  if 65 ≤ c.toNat ∧ c.toNat ≤ 90 then Char.ofNat (c.toNat + 32) else c

/-- Model of `value.trim()` on the character list. -/
def trimChars (cs : List Char) : List Char :=
  ((cs.dropWhile jsWhitespace).reverse.dropWhile jsWhitespace).reverse

/-- Model of `value.trim()`. -/
def jsTrim (s : String) : String := ⟨trimChars s.data⟩

/-- Model of `value.toLowerCase()` (ASCII range). -/
def jsToLower (s : String) : String := ⟨s.data.map lowerChar⟩

/-- JSON field value as observed by the `typeof value !== "string"`
checks: either a string or some non-string value. -/
inductive JsValue where
  | str (s : String)
  | nonStr
deriving DecidableEq

/-- Source `normalizeString` (contact.js lines 4-7): empty string for
non-strings, else the trimmed string. -/
def normalizeString : JsValue → String
  | .str s => jsTrim s
  | .nonStr => ""

/-- Source `normalizeEmail` (contact.js lines 9-12) on a string value:
trim, then lowercase. -/
def normalizeEmail (s : String) : String := jsToLower (jsTrim s)

/-- Source `normalizeEmail` on a possibly non-string value. -/
def normalizeEmailVal : JsValue → String
  | .str s => normalizeEmail s
  | .nonStr => ""

/-- Separator class of the split pattern `[,;\s]+` in
`parseRecipientList`. -/
def isSepChar (c : Char) : Bool := c == ',' || c == ';' || jsWhitespace c

mutual

/-- Field-building state of `String(value).split(/[,;\s]+/)`: reading a
field whose characters so far are `cur` (reversed). -/
def splitGo (cur : List Char) : List Char → List (List Char)
  | [] => [cur.reverse]
  | c :: rest =>
    if isSepChar c then cur.reverse :: splitSep rest else splitGo (c :: cur) rest

/-- Separator-run state of `String(value).split(/[,;\s]+/)`: the `+` in
the pattern consumes the whole run, producing a trailing empty field when
the input ends inside the run. -/
def splitSep : List Char → List (List Char)
  | [] => [[]]
  | c :: rest => if isSepChar c then splitSep rest else splitGo [c] rest

end

/-- Model of `String(value).split(/[,;\s]+/)`: maximal runs of
non-separator characters, with the same leading/trailing empty fields as
the JS `split` (which are then discarded by `filter(Boolean)`). -/
def splitFields (cs : List Char) : List (List Char) := splitGo [] cs

/-- Value taken by one configured recipient source as `parseRecipientList`
inspects it: `undefined`, a string, or an array of strings (the
`Array.isArray` branch of the source). -/
inductive RecipientsInput where
  | undef
  | str (s : String)
  | arr (xs : List String)
deriving DecidableEq

/-- Source `parseRecipientList` (contact.js lines 23-32): `undefined` and
`""` are falsy and yield `[]`; an array is normalized element-wise; a
string is split on comma/semicolon/whitespace runs, normalized and
cleared of empties (`filter(Boolean)`). -/
def parseRecipientList : RecipientsInput → List String
  | .undef => []
  | .arr xs => (xs.map normalizeEmail).filter (fun e => e ≠ "")
  | .str s =>
    if s = "" then []
    else (((splitFields s.data).map fun t => normalizeEmail ⟨t⟩).filter (fun e => e ≠ ""))

/-- Loop body of source `dedupeEmails` (contact.js lines 34-46): `seen`
is the set of already-seen normalized keys (as a list), and a value is
kept, unchanged, exactly when its normalized key is non-empty and not yet
seen. -/
def dedupeGo (seen : List String) : List String → List String
  | [] => []
  | e :: rest =>
    if normalizeEmail e = "" ∨ normalizeEmail e ∈ seen then dedupeGo seen rest
    else e :: dedupeGo (normalizeEmail e :: seen) rest

/-- Source `dedupeEmails` (contact.js lines 34-46). -/
def dedupeEmails (values : List String) : List String := dedupeGo [] values

/-- Ambient configuration read by `resolveContactRecipients`: the four
multi-value recipient environment variables, plus the two fallback
from-address variables (`process.env` entries are strings or
`undefined`). -/
structure Env where
  CONTACT_FORM_RECIPIENTS : RecipientsInput
  CONTACT_RECIPIENTS : RecipientsInput
  CONTACT_EMAIL : RecipientsInput
  SUPPORT_EMAIL : RecipientsInput
  MAIL_FROM : Option String
  SMTP_USER : Option String
deriving DecidableEq

/-- Source `envCandidates` array (contact.js lines 49-54), in source
order. -/
def envCandidates (env : Env) : List RecipientsInput :=
  [env.CONTACT_FORM_RECIPIENTS, env.CONTACT_RECIPIENTS,
   env.CONTACT_EMAIL, env.SUPPORT_EMAIL]

/-- The flattened parse of the environment candidates:
`envCandidates.flatMap((value) => parseRecipientList(value))` (contact.js
line 57). -/
def envRecipientTokens (env : Env) : List String :=
  (envCandidates env).flatMap parseRecipientList

/-- JavaScript `a || b` on two `process.env` entries (a string is falsy
exactly when empty). -/
def jsOrStr : Option String → Option String → Option String
  | some s, b => if s = "" then b else some s
  | none, b => b

/-- Source `normalizeEmail` applied to a `process.env` entry
(`undefined` is not a string and normalizes to `""`). -/
def normalizeEmailOpt : Option String → String
  | some s => normalizeEmail s
  | none => ""

/-- Source `resolveContactRecipients` (contact.js lines 48-73), with the
ambient `process.env` as an explicit argument and the external
`listTeamMemberEmails()` call as an `Except` (it is invoked with no
`try`/`catch`, so `Except.error` propagates to the caller). -/
def resolveContactRecipients (env : Env) (dir : Except String (List String)) :
    Except String (List String) :=
  let recipients := dedupeEmails (envRecipientTokens env)
  if recipients = [] then
    match dir with
    | .error e => .error e
    | .ok teamEmails =>
      let fallback := dedupeEmails teamEmails
      if fallback = [] then
        let smtpUser := normalizeEmailOpt (jsOrStr env.MAIL_FROM env.SMTP_USER)
        if smtpUser = "" then .ok [] else .ok [smtpUser]
      else .ok fallback
  else .ok recipients

/-! Helper lemmas about `dedupeGo` / `dedupeEmails`. -/

theorem dedupeGo_sublist (seen : List String) (xs : List String) :
    (dedupeGo seen xs).Sublist xs := by
  induction xs generalizing seen with
  | nil => simp [dedupeGo]
  | cons e rest ih =>
    rw [dedupeGo]
    split
    · exact (ih seen).cons e
    · exact (ih _).cons₂ e

theorem dedupeGo_mem_key (seen : List String) (xs : List String) :
    ∀ e ∈ dedupeGo seen xs, normalizeEmail e ≠ "" ∧ normalizeEmail e ∉ seen := by
  induction xs generalizing seen with
  | nil => simp [dedupeGo]
  | cons x rest ih =>
    intro e he
    rw [dedupeGo] at he
    split at he
    · exact ih seen e he
    · rcases List.mem_cons.mp he with rfl | htail
      · constructor
        · intro h0
          exact ‹¬(normalizeEmail e = "" ∨ normalizeEmail e ∈ seen)› (Or.inl h0)
        · intro hs
          exact ‹¬(normalizeEmail e = "" ∨ normalizeEmail e ∈ seen)› (Or.inr hs)
      · have h := ih _ e htail
        exact ⟨h.1, fun hs => h.2 (List.mem_cons_of_mem _ hs)⟩

theorem dedupeGo_keys_nodup (seen : List String) (xs : List String) :
    ((dedupeGo seen xs).map normalizeEmail).Nodup := by
  induction xs generalizing seen with
  | nil => simp [dedupeGo]
  | cons x rest ih =>
    rw [dedupeGo]
    split
    · exact ih seen
    · rw [List.map_cons, List.nodup_cons]
      refine ⟨?_, ih _⟩
      intro hmem
      rcases List.mem_map.mp hmem with ⟨e, he, hkey⟩
      exact (dedupeGo_mem_key _ _ e he).2 (by rw [hkey]; exact List.mem_cons_self _ _)

theorem dedupeGo_of_clean (seen : List String) (ys : List String)
    (hkeys : ∀ e ∈ ys, normalizeEmail e ≠ "" ∧ normalizeEmail e ∉ seen)
    (hnodup : (ys.map normalizeEmail).Nodup) :
    dedupeGo seen ys = ys := by
  induction ys generalizing seen with
  | nil => simp [dedupeGo]
  | cons y rest ih =>
    have hy := hkeys y (List.mem_cons_self _ _)
    rw [dedupeGo, if_neg (by push_neg; exact hy)]
    congr 1
    rw [List.map_cons, List.nodup_cons] at hnodup
    refine ih _ ?_ hnodup.2
    intro e he
    have h := hkeys e (List.mem_cons_of_mem _ he)
    refine ⟨h.1, ?_⟩
    intro hs
    rcases List.mem_cons.mp hs with heq | hseen
    · exact hnodup.1 (heq ▸ List.mem_map_of_mem normalizeEmail he)
    · exact h.2 hseen

theorem dedupeEmails_idem (xs : List String) :
    dedupeEmails (dedupeEmails xs) = dedupeEmails xs := by
  refine dedupeGo_of_clean [] _ ?_ (dedupeGo_keys_nodup [] xs)
  intro e he
  exact ⟨(dedupeGo_mem_key [] xs e he).1, by simp⟩

theorem dedupeGo_first_seen (seen : List String) (xs : List String) :
    ∀ e ∈ dedupeGo seen xs, ∃ pre post, xs = pre ++ e :: post ∧
      ∀ x ∈ pre, normalizeEmail x ≠ normalizeEmail e := by
  induction xs generalizing seen with
  | nil => simp [dedupeGo]
  | cons x rest ih =>
    intro e he
    rw [dedupeGo] at he
    split at he
    · rename_i hskip
      rcases ih seen e he with ⟨pre, post, hsplit, hpre⟩
      have hkey := dedupeGo_mem_key seen rest e he
      refine ⟨x :: pre, post, by rw [hsplit]; rfl, ?_⟩
      intro y hy
      rcases List.mem_cons.mp hy with rfl | hymem
      · rcases hskip with h0 | hseen
        · rw [h0]; exact fun h => hkey.1 h.symm
        · exact fun h => hkey.2 (h ▸ hseen)
      · exact hpre y hymem
    · rename_i hkeep
      rcases List.mem_cons.mp he with rfl | htail
      · exact ⟨[], rest, rfl, by simp⟩
      · rcases ih _ e htail with ⟨pre, post, hsplit, hpre⟩
        have hkey := dedupeGo_mem_key _ rest e htail
        refine ⟨x :: pre, post, by rw [hsplit]; rfl, ?_⟩
        intro y hy
        rcases List.mem_cons.mp hy with rfl | hymem
        · intro h
          exact hkey.2 (h ▸ List.mem_cons_self _ _)
        · exact hpre y hymem

theorem dedupeGo_complete (seen : List String) (xs : List String) (t : String)
    (ht : t ∈ xs) (hkey : normalizeEmail t ≠ "") (hseen : normalizeEmail t ∉ seen) :
    ∃ e ∈ dedupeGo seen xs, normalizeEmail e = normalizeEmail t := by
  induction xs generalizing seen with
  | nil => cases ht
  | cons x rest ih =>
    rw [dedupeGo]
    rcases List.mem_cons.mp ht with rfl | htail
    · rw [if_neg (by push_neg; exact ⟨hkey, hseen⟩)]
      exact ⟨t, List.mem_cons_self _ _, rfl⟩
    · split
      · exact ih seen htail hseen
      · rcases Decidable.em (normalizeEmail x = normalizeEmail t) with heq | hne
        · exact ⟨x, List.mem_cons_self _ _, heq⟩
        · rcases ih (normalizeEmail x :: seen) htail
            (by intro h; rcases List.mem_cons.mp h with h | h
                exacts [hne h.symm, hseen h]) with ⟨e, he, hkeye⟩
          exact ⟨e, List.mem_cons_of_mem _ he, hkeye⟩

/-! Helper lemmas about the character-level normalization. -/

theorem lowerChar_toNat_of_upper (c : Char) (h : 65 ≤ c.toNat ∧ c.toNat ≤ 90) :
    (lowerChar c).toNat = c.toNat + 32 := by
  rw [lowerChar, if_pos h]
  have hv : (c.toNat + 32).isValidChar := by
    left
    omega
  unfold Char.ofNat
  rw [dif_pos hv]
  rfl

theorem lowerChar_eq_of_not_upper (c : Char) (h : ¬(65 ≤ c.toNat ∧ c.toNat ≤ 90)) :
    lowerChar c = c := by
  rw [lowerChar, if_neg h]

theorem lowerChar_idem (c : Char) : lowerChar (lowerChar c) = lowerChar c := by
  by_cases h : 65 ≤ c.toNat ∧ c.toNat ≤ 90
  · have ht : (lowerChar c).toNat = c.toNat + 32 := lowerChar_toNat_of_upper c h
    exact lowerChar_eq_of_not_upper _ (by omega)
  · rw [lowerChar_eq_of_not_upper c h]
    exact lowerChar_eq_of_not_upper c h

theorem jsWhitespace_lowerChar (c : Char) :
    jsWhitespace (lowerChar c) = jsWhitespace c := by
  by_cases h : 65 ≤ c.toNat ∧ c.toNat ≤ 90
  · have ht : (lowerChar c).toNat = c.toNat + 32 := lowerChar_toNat_of_upper c h
    have h1 : jsWhitespace (lowerChar c) = false := by
      simp only [jsWhitespace, ht]
      simp only [Bool.or_eq_false_iff, Bool.and_eq_false_iff,
        beq_eq_false_iff_ne, ne_eq, decide_eq_false_iff_not, not_le]
      omega
    have h2 : jsWhitespace c = false := by
      simp only [jsWhitespace]
      simp only [Bool.or_eq_false_iff, Bool.and_eq_false_iff,
        beq_eq_false_iff_ne, ne_eq, decide_eq_false_iff_not, not_le]
      omega
    rw [h1, h2]
  · rw [lowerChar, if_neg h]

theorem dropWhile_map_of_pred (p : Char → Bool) (f : Char → Char)
    (hf : ∀ c, p (f c) = p c) (l : List Char) :
    (l.map f).dropWhile p = (l.dropWhile p).map f := by
  induction l with
  | nil => simp
  | cons x xs ih =>
    by_cases hx : p x
    · simp [List.dropWhile_cons, hf, hx, ih]
    · simp [List.dropWhile_cons, hf, hx]

theorem trimChars_map_of_pred (f : Char → Char)
    (hf : ∀ c, jsWhitespace (f c) = jsWhitespace c) (l : List Char) :
    trimChars (l.map f) = (trimChars l).map f := by
  unfold trimChars
  rw [dropWhile_map_of_pred jsWhitespace f hf, ← List.map_reverse,
    dropWhile_map_of_pred jsWhitespace f hf, ← List.map_reverse]

theorem dropWhile_head_false {p : Char → Bool} {l : List Char} {y : Char}
    {ys : List Char} (h : l.dropWhile p = y :: ys) : p y = false := by
  induction l with
  | nil => cases h
  | cons x xs ih =>
    rw [List.dropWhile_cons] at h
    split at h
    · exact ih h
    · cases h
      rename_i hx
      simpa using hx

theorem dropWhile_eq_self_of_head {p : Char → Bool} {l : List Char}
    (h : ∀ y ys, l = y :: ys → p y = false) : l.dropWhile p = l := by
  cases l with
  | nil => rfl
  | cons y ys => rw [List.dropWhile_cons, if_neg (by simp [h y ys rfl])]

theorem dropWhile_idem (p : Char → Bool) (l : List Char) :
    (l.dropWhile p).dropWhile p = l.dropWhile p := by
  cases hd : l.dropWhile p with
  | nil => rfl
  | cons y ys => rw [List.dropWhile_cons, if_neg (by simp [dropWhile_head_false hd])]

theorem trimChars_head_false {l : List Char} {y : Char} {ys : List Char}
    (h : trimChars l = y :: ys) : jsWhitespace y = false := by
  unfold trimChars at h
  have hsplit := List.takeWhile_append_dropWhile jsWhitespace
    (l.dropWhile jsWhitespace).reverse
  have hrev := congrArg List.reverse hsplit
  rw [List.reverse_append, List.reverse_reverse] at hrev
  rw [h] at hrev
  exact dropWhile_head_false hrev.symm

theorem trimChars_reverse_dropWhile (l : List Char) :
    (trimChars l).reverse.dropWhile jsWhitespace = (trimChars l).reverse := by
  unfold trimChars
  rw [List.reverse_reverse]
  exact dropWhile_idem jsWhitespace _

theorem trimChars_idem (l : List Char) : trimChars (trimChars l) = trimChars l := by
  conv_lhs => rw [trimChars]
  rw [dropWhile_eq_self_of_head (fun y ys h => trimChars_head_false h),
    trimChars_reverse_dropWhile, List.reverse_reverse]

theorem map_lowerChar_idem (l : List Char) :
    (l.map lowerChar).map lowerChar = l.map lowerChar := by
  induction l with
  | nil => rfl
  | cons x xs ih => simp [ih, lowerChar_idem]

theorem normalizeEmail_idem (s : String) :
    normalizeEmail (normalizeEmail s) = normalizeEmail s := by
  show (⟨(trimChars ((trimChars s.data).map lowerChar)).map lowerChar⟩ : String) =
    ⟨(trimChars s.data).map lowerChar⟩
  rw [trimChars_map_of_pred lowerChar jsWhitespace_lowerChar, trimChars_idem,
    map_lowerChar_idem]

theorem parseRecipientList_mem (v : RecipientsInput) (t : String)
    (ht : t ∈ parseRecipientList v) : (∃ raw, t = normalizeEmail raw) ∧ t ≠ "" := by
  cases v with
  | undef => cases ht
  | arr xs =>
    simp only [parseRecipientList, List.mem_filter, List.mem_map] at ht
    rcases ht with ⟨⟨raw, _, rfl⟩, hne⟩
    exact ⟨⟨raw, rfl⟩, by simpa using hne⟩
  | str s =>
    rw [parseRecipientList] at ht
    split at ht
    · cases ht
    · simp only [List.mem_filter, List.mem_map] at ht
      rcases ht with ⟨⟨raw, _, rfl⟩, hne⟩
      exact ⟨⟨⟨raw⟩, rfl⟩, by simpa using hne⟩

theorem envRecipientTokens_mem (env : Env) (t : String)
    (ht : t ∈ envRecipientTokens env) : normalizeEmail t = t ∧ t ≠ "" := by
  rw [envRecipientTokens] at ht
  rcases List.mem_flatMap.mp ht with ⟨v, _, hv⟩
  rcases parseRecipientList_mem v t hv with ⟨⟨raw, rfl⟩, hne⟩
  exact ⟨normalizeEmail_idem raw, hne⟩

/-- C10: `dedupeEmails` is order-preserving, duplicate-free and
idempotent: the output is a sublist of the input (hence every output
element occurs in the input, in input order), the trimmed-lowercased keys
of the output are pairwise distinct and none is empty, each output
element is the first input element bearing its key, and running
`dedupeEmails` twice equals running it once. -/
theorem c10_dedupe_properties (xs : List String) :
    (dedupeEmails xs).Sublist xs ∧
    ((dedupeEmails xs).map normalizeEmail).Nodup ∧
    (∀ e, e ∈ dedupeEmails xs → normalizeEmail e ≠ "") ∧
    dedupeEmails (dedupeEmails xs) = dedupeEmails xs ∧
    (∀ e, e ∈ dedupeEmails xs → ∃ pre post, xs = pre ++ e :: post ∧
      ∀ x ∈ pre, normalizeEmail x ≠ normalizeEmail e) :=
  ⟨dedupeGo_sublist [] xs, dedupeGo_keys_nodup [] xs,
   fun e he => (dedupeGo_mem_key [] xs e he).1,
   dedupeEmails_idem xs,
   dedupeGo_first_seen [] xs⟩

/-- Witness for C10 at a concrete input: the case-insensitive duplicate
is dropped and the survivor is the first occurrence. -/
theorem c10_witness :
    (dedupeEmails ["a@b.com", " A@B.COM ", "c@d.com"]).Sublist
      ["a@b.com", " A@B.COM ", "c@d.com"] ∧
    (∃ pre post, ["a@b.com", " A@B.COM ", "c@d.com"] = pre ++ "c@d.com" :: post ∧
      ∀ x ∈ pre, normalizeEmail x ≠ normalizeEmail "c@d.com") :=
  ⟨(c10_dedupe_properties _).1,
   (c10_dedupe_properties _).2.2.2.2 "c@d.com" (by decide)⟩

/-- Environment configuring a single mixed-case recipient address. -/
def envCase : Env :=
  ⟨.str "Foo@Bar.com", .undef, .undef, .undef, none, none⟩

/-- Counterexample to C1: with `CONTACT_FORM_RECIPIENTS = "Foo@Bar.com"`,
the resolved recipient list is `["foo@bar.com"]` — the trimmed,
lowercased normalization — not the first-seen original casing
`"Foo@Bar.com"`, because `parseRecipientList` maps every token through
`normalizeEmail` before deduplication. -/
theorem c1_counterexample :
    resolveContactRecipients envCase (.ok []) = .ok ["foo@bar.com"] ∧
    ("foo@bar.com" : String) ≠ "Foo@Bar.com" := ⟨rfl, by decide⟩

/-- C1 (amended): for environment recipient sources, the resolved list
holds each case-insensitively distinct address exactly once (normalized
keys are pairwise distinct), in first-seen order (it is a sublist of the
parsed token stream and each kept element is the first token bearing its
key), every distinct parsed address is represented — but each emitted
address is its trimmed, lowercased normalization (`normalizeEmail e = e`
for every output element), so the first-seen original casing is not
retained. -/
theorem c1_env_recipients_normalized (env : Env) :
    (dedupeEmails (envRecipientTokens env)).Sublist (envRecipientTokens env) ∧
    ((dedupeEmails (envRecipientTokens env)).map normalizeEmail).Nodup ∧
    (∀ e, e ∈ dedupeEmails (envRecipientTokens env) → normalizeEmail e = e) ∧
    (∀ t, t ∈ envRecipientTokens env →
      ∃ e, e ∈ dedupeEmails (envRecipientTokens env) ∧
        normalizeEmail e = normalizeEmail t) ∧
    (∀ e, e ∈ dedupeEmails (envRecipientTokens env) →
      ∃ pre post, envRecipientTokens env = pre ++ e :: post ∧
        ∀ x ∈ pre, normalizeEmail x ≠ normalizeEmail e) := by
  refine ⟨dedupeGo_sublist [] _, dedupeGo_keys_nodup [] _, ?_, ?_,
    dedupeGo_first_seen [] _⟩
  · intro e he
    exact (envRecipientTokens_mem env e ((dedupeGo_sublist [] _).subset he)).1
  · intro t ht
    have h := envRecipientTokens_mem env t ht
    have hkey : normalizeEmail t ≠ "" := by rw [h.1]; exact h.2
    exact dedupeGo_complete [] _ t ht hkey (by simp)

/-- Witness for C1 at the concrete environment `envCase`. -/
theorem c1_witness :
    normalizeEmail "foo@bar.com" = "foo@bar.com" ∧
    (∃ e, e ∈ dedupeEmails (envRecipientTokens envCase) ∧
      normalizeEmail e = normalizeEmail "foo@bar.com") :=
  ⟨(c1_env_recipients_normalized envCase).2.2.1 "foo@bar.com" (by decide),
   (c1_env_recipients_normalized envCase).2.2.2.1 "foo@bar.com" (by decide)⟩

theorem resolveContactRecipients_of_env_nonempty (env : Env)
    (dir : Except String (List String))
    (h : dedupeEmails (envRecipientTokens env) ≠ []) :
    resolveContactRecipients env dir = .ok (dedupeEmails (envRecipientTokens env)) := by
  simp only [resolveContactRecipients]
  rw [if_neg h]

/-- C3: when the parsed, deduplicated union of the environment
multi-value recipient sources is non-empty, `resolveContactRecipients`
returns exactly that list for every possible directory outcome `dir`
(including a throwing directory, so the directory lookup is never
consulted), and the result is unchanged under arbitrary replacement of
the `MAIL_FROM` / `SMTP_USER` fallback settings. -/
theorem c3_env_priority_short_circuit (env : Env)
    (dir : Except String (List String)) (mf su : Option String)
    (h : dedupeEmails (envRecipientTokens env) ≠ []) :
    resolveContactRecipients env dir = .ok (dedupeEmails (envRecipientTokens env)) ∧
    resolveContactRecipients { env with MAIL_FROM := mf, SMTP_USER := su } dir =
      resolveContactRecipients env dir := by
  have h2 : dedupeEmails
      (envRecipientTokens { env with MAIL_FROM := mf, SMTP_USER := su }) ≠ [] := h
  refine ⟨resolveContactRecipients_of_env_nonempty env dir h, ?_⟩
  rw [resolveContactRecipients_of_env_nonempty _ dir h2,
    resolveContactRecipients_of_env_nonempty env dir h]
  rfl

/-- Witness for C3: with one configured address, an erroring directory
stub is never reached and the environment list is returned. -/
theorem c3_witness :
    resolveContactRecipients envCase (.error "directory stub called") =
      .ok (dedupeEmails (envRecipientTokens envCase)) :=
  (c3_env_priority_short_circuit envCase (.error "directory stub called")
    none none (by decide)).1

/-- Model of `str.replace(/x/g, rep)` for a single-character pattern:
every occurrence of `c` is replaced by `rep`, all at once (a global
regex replace scans left to right without revisiting its output). -/
def replaceAllChar (c : Char) (rep : List Char) : List Char → List Char
  | [] => []
  | x :: xs => (if x = c then rep else [x]) ++ replaceAllChar c rep xs

/-- Source `escapeHtml` (contact.js lines 14-21): the five chained
global replaces, in source order (`&`, `<`, `>`, `"`, apostrophe). -/
def escapeHtml (s : String) : String :=
  ⟨replaceAllChar (Char.ofNat 39) "&#39;".data
    (replaceAllChar '"' "&quot;".data
      (replaceAllChar '>' "&gt;".data
        (replaceAllChar '<' "&lt;".data
          (replaceAllChar '&' "&amp;".data s.data))))⟩

/-- The per-character substitution that `escapeHtml` implements. -/
def htmlEntity (c : Char) : List Char :=
  if c = '&' then "&amp;".data
  else if c = '<' then "&lt;".data
  else if c = '>' then "&gt;".data
  else if c = '"' then "&quot;".data
  else if c = Char.ofNat 39 then "&#39;".data
  else [c]

/-- Character-wise concatenating map (the meaning of a single
simultaneous substitution). -/
def concatMapChars (f : Char → List Char) : List Char → List Char
  | [] => []
  | x :: xs => f x ++ concatMapChars f xs

/-- JavaScript `array.filter(Boolean)` over an array whose entries are
strings or `null`: `null` and the empty string are falsy and dropped. -/
def jsFilterBoolean (l : List (Option String)) : List String :=
  l.filterMap fun v =>
    match v with
    | some s => if s = "" then none else some s
    | none => none

/-- JavaScript `array.join(sep)`. -/
def joinSep (sep : String) : List String → String
  | [] => ""
  | [x] => x
  | x :: xs => x ++ sep ++ joinSep sep xs

/-- The `{ text, html }` pair produced by `formatEmailBody`. -/
structure RenderedMessage where
  text : String
  html : String
deriving DecidableEq

/-- Source `formatEmailBody` (contact.js lines 75-103). `submittedLabel`
stands for `submittedAt.toISOString()` (the `Date` object and its
formatting are external). The `lines` array holds `null` for the
suppressed name/email entries, a literal `""` entry, and the message;
`filter(Boolean)` (`jsFilterBoolean`) then removes the falsy entries.
The `html` template literal is transcribed with its exact whitespace. -/
def formatEmailBody (name email _subject message submittedLabel : String) :
    RenderedMessage :=
  let safeMessage := escapeHtml message
  let safeName := escapeHtml name
  let safeEmail := escapeHtml email
  let lines : List (Option String) :=
    [some "New contact form submission received.",
     some ("Submitted at: " ++ submittedLabel),
     if name ≠ "" then some ("Name: " ++ name) else none,
     if email ≠ "" then some ("Email: " ++ email) else none,
     some "",
     some message]
  let text := joinSep "\n" (jsFilterBoolean lines)
  let html :=
    "\n    <p><strong>New contact form submission received.</strong></p>\n    <ul>\n      <li><strong>Submitted at:</strong> " ++
    submittedLabel ++ "</li>\n      " ++
    (if name ≠ "" then "<li><strong>Name:</strong> " ++ safeName ++ "</li>" else "") ++
    "\n      " ++
    (if email ≠ "" then "<li><strong>Email:</strong> " ++ safeEmail ++ "</li>" else "") ++
    "\n    </ul>\n    <p><strong>Message:</strong></p>\n    <blockquote>" ++
    String.mk (replaceAllChar '\n' "<br>".data safeMessage.data) ++
    "</blockquote>\n  "
  ⟨text, html⟩

/-- C2 (code bug): the `lines` array of `formatEmailBody` contains a
literal `""` entry intended as the blank line separating the header
lines from the message, but `filter(Boolean)` treats `""` as falsy and
removes it, so the rendered text body has no blank line before the
message. At a concrete validated submission the text equals the
no-blank-line rendering and differs from the spec's blank-line
rendering. -/
theorem c2_text_body_blank_line_dropped :
    (formatEmailBody "Ada" "a@b.com" "Hi" "Hello" "2026-01-01T00:00:00.000Z").text =
      "New contact form submission received.\nSubmitted at: 2026-01-01T00:00:00.000Z\nName: Ada\nEmail: a@b.com\nHello" ∧
    (formatEmailBody "Ada" "a@b.com" "Hi" "Hello" "2026-01-01T00:00:00.000Z").text ≠
      "New contact form submission received.\nSubmitted at: 2026-01-01T00:00:00.000Z\nName: Ada\nEmail: a@b.com\n\nHello" := by
  constructor
  · rfl
  · decide

/-- Model of `subject.startsWith(p)`. -/
def startsWithStr (s p : String) : Bool := p.data.isPrefixOf s.data

/-- Source `safeSubject` computation (contact.js lines 170-172): note
the guard tests the prefix *without* the trailing space, while the
prepended prefix carries one. -/
def safeSubject (subject : String) : String :=
  if startsWithStr subject "Website contact:" then subject
  else "Website contact: " ++ subject

theorem isPrefixOf_append_self (l r : List Char) : l.isPrefixOf (l ++ r) = true := by
  induction l with
  | nil => simp [List.isPrefixOf]
  | cons x xs ih => simp [List.isPrefixOf, ih]

theorem startsWith_prefixed (s : String) :
    startsWithStr ("Website contact: " ++ s) "Website contact:" = true := by
  unfold startsWithStr
  have h1 : ("Website contact: " ++ s).data = "Website contact: ".data ++ s.data :=
    String.data_append _ s
  have h2 : "Website contact: ".data = "Website contact:".data ++ [' '] := rfl
  rw [h1, h2, List.append_assoc]
  exact isPrefixOf_append_self _ _

/-- Counterexample to C4: the guard checks the prefix without the
trailing space, so the subject `"Website contact:Hi"` — which does NOT
begin with the claimed fixed literal `"Website contact: "` — is left
unchanged instead of getting the prefix prepended as the claim
requires. -/
theorem c4_counterexample :
    startsWithStr "Website contact:Hi" "Website contact: " = false ∧
    safeSubject "Website contact:Hi" ≠ "Website contact: " ++ "Website contact:Hi" := by
  constructor
  · rfl
  · decide

/-- C4 (amended): the dispatched subject is the subject unchanged when
it already begins with `"Website contact:"` (no trailing space in the
guard), and otherwise `"Website contact: "` prepended; the normalization
is idempotent — applying it to its own output changes nothing, so the
prefix is never duplicated. -/
theorem c4_subject_prefix_amended (s : String) :
    (startsWithStr s "Website contact:" = true → safeSubject s = s) ∧
    (startsWithStr s "Website contact:" = false →
      safeSubject s = "Website contact: " ++ s) ∧
    safeSubject (safeSubject s) = safeSubject s := by
  refine ⟨?_, ?_, ?_⟩
  · intro h
    rw [safeSubject, if_pos h]
  · intro h
    rw [safeSubject, if_neg (by simp [h])]
  · by_cases h : startsWithStr s "Website contact:" = true
    · have h1 : safeSubject s = s := by rw [safeSubject, if_pos h]
      rw [h1]
      exact h1
    · have hfalse : startsWithStr s "Website contact:" = false := by
        cases hb : startsWithStr s "Website contact:" <;> simp_all
      have h1 : safeSubject s = "Website contact: " ++ s := by
        rw [safeSubject, if_neg (by simp [hfalse])]
      rw [h1, safeSubject, if_pos (startsWith_prefixed s)]

/-- Witness for C4 at concrete subjects: a plain subject is prefixed,
an already-prefixed subject is unchanged. -/
theorem c4_witness :
    safeSubject "Hi" = "Website contact: " ++ "Hi" ∧
    safeSubject ("Website contact: " ++ "Hi") = "Website contact: " ++ "Hi" :=
  ⟨(c4_subject_prefix_amended "Hi").2.1 (by decide),
   (c4_subject_prefix_amended _).1 (by decide)⟩

theorem replaceAllChar_append (c : Char) (rep x y : List Char) :
    replaceAllChar c rep (x ++ y) =
      replaceAllChar c rep x ++ replaceAllChar c rep y := by
  induction x with
  | nil => rfl
  | cons a as ih => simp [replaceAllChar, ih, List.append_assoc]

theorem escapeChain_eq (l : List Char) :
    replaceAllChar (Char.ofNat 39) "&#39;".data
      (replaceAllChar '"' "&quot;".data
        (replaceAllChar '>' "&gt;".data
          (replaceAllChar '<' "&lt;".data
            (replaceAllChar '&' "&amp;".data l)))) = concatMapChars htmlEntity l := by
  induction l with
  | nil => rfl
  | cons x xs ih =>
    rw [replaceAllChar, replaceAllChar_append, replaceAllChar_append,
      replaceAllChar_append, replaceAllChar_append, ih, concatMapChars]
    congr 1
    by_cases h1 : x = '&'
    · subst h1; rfl
    · by_cases h2 : x = '<'
      · subst h2; rfl
      · by_cases h3 : x = '>'
        · subst h3; rfl
        · by_cases h4 : x = '"'
          · subst h4; rfl
          · by_cases h5 : x = Char.ofNat 39
            · subst h5; rfl
            · simp [replaceAllChar, htmlEntity, h1, h2, h3, h4, h5]

theorem escapeHtml_data_eq (s : String) :
    (escapeHtml s).data = concatMapChars htmlEntity s.data := escapeChain_eq s.data

theorem joinSep_concat (sep : String) (l : List String) (y : String) (hl : l ≠ []) :
    joinSep sep (l ++ [y]) = joinSep sep l ++ sep ++ y := by
  induction l with
  | nil => cases hl rfl
  | cons x xs ih =>
    cases xs with
    | nil => rfl
    | cons z zs =>
      have ih2 := ih (by simp)
      simp only [List.cons_append] at ih2 ⊢
      show x ++ sep ++ joinSep sep (z :: (zs ++ [y])) =
        x ++ sep ++ joinSep sep (z :: zs) ++ sep ++ y
      rw [ih2]
      simp only [String.append_assoc]

theorem append_ne_empty_of_left (a b : String) (h : a ≠ "") : a ++ b ≠ "" := by
  intro hc
  apply h
  have hd := congrArg String.data hc
  rw [String.data_append] at hd
  exact String.ext (List.append_eq_nil.mp hd).1

/-- Substring test: the pattern occurs at some offset of the string. -/
def strContains (s pat : String) : Bool :=
  (List.range (s.data.length + 1)).any fun i => pat.data.isPrefixOf (s.data.drop i)

set_option maxRecDepth 100000 in
/-- C5: `escapeHtml` is exactly the character-wise substitution of the
five HTML entities (so every occurrence of the five markup characters in
a user-supplied field is replaced when the field is interpolated into
the HTML body); the text body carries the raw message verbatim as its
final segment; the HTML body embeds the escaped, newline-to-`<br>`
converted message; and at a concrete submission whose message contains
`<script>` the HTML output contains the escaped form and not the raw
tag, while the text output contains the raw message. -/
theorem c5_html_escaping :
    (∀ s : String, (escapeHtml s).data = concatMapChars htmlEntity s.data) ∧
    (∀ name email subject message label : String, message ≠ "" →
      ∃ pre, (formatEmailBody name email subject message label).text = pre ++ message) ∧
    (∀ name email subject message label : String,
      ∃ p q, (formatEmailBody name email subject message label).html =
        p ++ String.mk (replaceAllChar '\n' "<br>".data (escapeHtml message).data) ++ q) ∧
    strContains (formatEmailBody "Ada" "a@b.com" "Hi" "<script>alert(1)</script>" "L").html
      "&lt;script&gt;" = true ∧
    strContains (formatEmailBody "Ada" "a@b.com" "Hi" "<script>alert(1)</script>" "L").html
      "<script>" = false ∧
    strContains (formatEmailBody "Ada" "a@b.com" "Hi" "<script>alert(1)</script>" "L").text
      "<script>alert(1)</script>" = true := by
  refine ⟨escapeHtml_data_eq, ?_, ?_, by decide, by decide, by decide⟩
  · intro name email subject message label hm
    have hsub : ("Submitted at: " ++ label) ≠ "" :=
      append_ne_empty_of_left _ _ (by decide)
    have hname : ("Name: " ++ name) ≠ "" :=
      append_ne_empty_of_left _ _ (by decide)
    have hemail : ("Email: " ++ email) ≠ "" :=
      append_ne_empty_of_left _ _ (by decide)
    have hfb : jsFilterBoolean
        [some "New contact form submission received.",
         some ("Submitted at: " ++ label),
         if name ≠ "" then some ("Name: " ++ name) else none,
         if email ≠ "" then some ("Email: " ++ email) else none,
         some "", some message] =
        (["New contact form submission received.", "Submitted at: " ++ label] ++
         (if name ≠ "" then ["Name: " ++ name] else []) ++
         (if email ≠ "" then ["Email: " ++ email] else [])) ++ [message] := by
      by_cases hn : name = "" <;> by_cases he : email = "" <;>
        simp [jsFilterBoolean, hn, he, hm, hsub, hname, hemail]
    refine ⟨joinSep "\n"
      (["New contact form submission received.", "Submitted at: " ++ label] ++
       (if name ≠ "" then ["Name: " ++ name] else []) ++
       (if email ≠ "" then ["Email: " ++ email] else [])) ++ "\n", ?_⟩
    show joinSep "\n" (jsFilterBoolean _) = _
    rw [hfb, joinSep_concat _ _ _ (by simp)]
  · intro name email subject message label
    exact ⟨_, _, rfl⟩

/-- Witness for C5 at a concrete submission. -/
theorem c5_witness :
    (escapeHtml "<script>").data = concatMapChars htmlEntity "<script>".data ∧
    (∃ pre, (formatEmailBody "Ada" "a@b.com" "Hi" "Hello" "L").text = pre ++ "Hello") :=
  ⟨c5_html_escaping.1 "<script>",
   c5_html_escaping.2.1 "Ada" "a@b.com" "Hi" "Hello" "L" (by decide)⟩

/-- Character class `[^\s@]` of the email regular expression: not
whitespace and not an at-sign. -/
def okChar (c : Char) : Bool := !jsWhitespace c && c != '@'

/-- Test of the anchored regular expression
`^[^\s@]+@[^\s@]+\.[^\s@]+$` (contact.js line 109). Because the class
`[^\s@]` excludes the at-sign, the `@` of the pattern can only match the
first character of the input failing `okChar` (which must be an `@`, the
local part being the maximal `okChar`-run before it, non-empty); the
rest must then be entirely `okChar` and, backtracking over the two
`[^\s@]+` of the domain, the literal dot can match any dot that is
neither the first nor the last character of the domain. -/
def emailRegexTest (cs : List Char) : Bool :=
  match cs.dropWhile okChar with
  | c :: domain =>
    c == '@' && !(cs.takeWhile okChar).isEmpty && domain.all okChar &&
      ((domain.drop 1).dropLast).contains '.'
  | [] => false

/-- Source `isLikelyEmail` (contact.js lines 105-110): `false` for
non-strings and for strings that are empty after trimming, else the
regular-expression test on the trimmed value. -/
def isLikelyEmail : JsValue → Bool
  | .nonStr => false
  | .str s => if jsTrim s = "" then false else emailRegexTest (jsTrim s).data

/-- The claimed minimal shape, following the specification words: the
value is non-empty, has exactly one at-sign with non-whitespace on both
sides, and at least one dot after the at-sign with non-empty,
non-whitespace segments around it. -/
def plausibleShape (cs : List Char) : Prop :=
  cs ≠ [] ∧ cs.count '@' = 1 ∧
  ∃ l d1 d2 : List Char,
    cs = l ++ '@' :: (d1 ++ '.' :: d2) ∧ l ≠ [] ∧ d1 ≠ [] ∧ d2 ≠ [] ∧
    (∀ c ∈ l, jsWhitespace c = false) ∧
    (∀ c ∈ d1 ++ '.' :: d2, jsWhitespace c = false)

theorem okChar_iff (c : Char) :
    okChar c = true ↔ jsWhitespace c = false ∧ c ≠ '@' := by
  simp [okChar]

theorem takeWhile_append_cons {p : Char → Bool} (l : List Char) (x : Char)
    (r : List Char) (hl : ∀ c ∈ l, p c = true) (hx : p x = false) :
    (l ++ x :: r).takeWhile p = l ∧ (l ++ x :: r).dropWhile p = x :: r := by
  induction l with
  | nil => simp [List.takeWhile_cons, List.dropWhile_cons, hx]
  | cons a as ih =>
    have ha := hl a (List.mem_cons_self _ _)
    have ih2 := ih fun c hc => hl c (List.mem_cons_of_mem _ hc)
    simp [List.takeWhile_cons, List.dropWhile_cons, ha, ih2.1, ih2.2]

theorem emailRegexTest_iff (cs : List Char) :
    emailRegexTest cs = true ↔ plausibleShape cs := by
  constructor
  · intro h
    cases hrest : cs.dropWhile okChar with
    | nil =>
      simp only [emailRegexTest, hrest] at h
      exact Bool.noConfusion h
    | cons c domain =>
      simp only [emailRegexTest, hrest, Bool.and_eq_true, beq_iff_eq,
        Bool.not_eq_true'] at h
      obtain ⟨⟨⟨rfl, hne⟩, hall⟩, hdot⟩ := h
      have hall' : ∀ x ∈ domain, okChar x = true := List.all_eq_true.mp hall
      have hsplit : cs = cs.takeWhile okChar ++ '@' :: domain := by
        have hh := List.takeWhile_append_dropWhile okChar cs
        rw [hrest] at hh
        exact hh.symm
      have hl_ne : cs.takeWhile okChar ≠ [] := by
        intro h0
        rw [h0] at hne
        simp at hne
      have hl_ok : ∀ x ∈ cs.takeWhile okChar, okChar x = true :=
        fun x hx => List.mem_takeWhile_imp hx
      cases domain with
      | nil => simp at hdot
      | cons d tl =>
        have hmem : '.' ∈ tl.dropLast := by simpa using hdot
        rcases List.eq_nil_or_concat tl with rfl | ⟨L, b, hLb⟩
        · simp at hmem
        · rw [hLb, List.concat_eq_append, List.dropLast_concat] at hmem
          obtain ⟨xs, ys, hxy⟩ := List.append_of_mem hmem
          have hdomain : (d :: tl : List Char) =
              (d :: xs) ++ '.' :: (ys ++ [b]) := by
            rw [hLb, List.concat_eq_append, hxy]
            simp [List.append_assoc]
          have hlat : '@' ∉ cs.takeWhile okChar := by
            intro hmem'
            have := hl_ok '@' hmem'
            simp [okChar] at this
          have hdat : '@' ∉ (d :: tl : List Char) := by
            intro hmem'
            have := hall' '@' hmem'
            simp [okChar] at this
          refine ⟨?_, ?_, cs.takeWhile okChar, d :: xs, ys ++ [b],
            ?_, hl_ne, by simp, by simp, ?_, ?_⟩
          · rw [hsplit]
            simp
          · rw [hsplit, List.count_append, List.count_eq_zero.mpr hlat]
            have h1 : ('@' :: d :: tl : List Char).count '@' = 1 := by
              rw [List.count_cons, List.count_eq_zero.mpr hdat]
              simp
            omega
          · rw [← hdomain]
            exact hsplit
          · exact fun x hx => ((okChar_iff x).mp (hl_ok x hx)).1
          · intro x hx
            rw [← hdomain] at hx
            exact ((okChar_iff x).mp (hall' x hx)).1
  · rintro ⟨hne, hcount, l, d1, d2, rfl, hl, hd1, hd2, hlws, hdws⟩
    have hcl : l.count '@' = 0 ∧ (d1 ++ '.' :: d2).count '@' = 0 := by
      rw [List.count_append, List.count_cons] at hcount
      simp only [beq_self_eq_true, if_true] at hcount
      omega
    have hlat : '@' ∉ l := List.count_eq_zero.mp hcl.1
    have hdat : '@' ∉ d1 ++ '.' :: d2 := List.count_eq_zero.mp hcl.2
    have hlok : ∀ c ∈ l, okChar c = true := fun c hc =>
      (okChar_iff c).mpr ⟨hlws c hc, fun hc' => hlat (hc' ▸ hc)⟩
    have hdok : ∀ c ∈ d1 ++ '.' :: d2, okChar c = true := fun c hc =>
      (okChar_iff c).mpr ⟨hdws c hc, fun hc' => hdat (hc' ▸ hc)⟩
    have htd := takeWhile_append_cons l '@' (d1 ++ '.' :: d2) hlok (by simp [okChar])
    simp only [emailRegexTest, htd.2, htd.1]
    obtain ⟨a1, as1, rfl⟩ := List.exists_cons_of_ne_nil hd1
    obtain ⟨b1, bs1, rfl⟩ := List.exists_cons_of_ne_nil hd2
    simp only [Bool.and_eq_true]
    refine ⟨⟨⟨rfl, ?_⟩, List.all_eq_true.mpr hdok⟩, ?_⟩
    · have hle : l.isEmpty = false := by
        cases l with
        | nil => exact absurd rfl hl
        | cons a as => rfl
      simp [hle]
    · have hdrop : ((a1 :: (as1 ++ '.' :: b1 :: bs1) : List Char).drop 1) =
          as1 ++ '.' :: b1 :: bs1 := rfl
      simp only [List.cons_append]
      rw [hdrop, List.dropLast_append_of_ne_nil as1
        (by simp : ('.' :: b1 :: bs1 : List Char) ≠ [])]
      simp [List.dropLast_cons_of_ne_nil]

/-- C6: `isLikelyEmail` returns false on every non-string, and on a
string it returns true exactly when the trimmed value has the claimed
minimal shape: non-empty, exactly one at-sign with non-whitespace on
both sides, and at least one dot after the at-sign with non-empty
non-whitespace segments. -/
theorem c6_is_likely_email_iff_shape :
    isLikelyEmail .nonStr = false ∧
    ∀ s : String, (isLikelyEmail (.str s) = true ↔ plausibleShape (jsTrim s).data) := by
  refine ⟨rfl, fun s => ?_⟩
  simp only [isLikelyEmail]
  by_cases h : jsTrim s = ""
  · rw [if_pos h, h]
    simp [plausibleShape]
  · rw [if_neg h]
    exact emailRegexTest_iff _

/-- Witness for C6: a concrete plausible address satisfies the test and
the shape; a concrete address without a dot after the at-sign fails the
test. -/
theorem c6_witness :
    isLikelyEmail (.str " a@b.co ") = true ∧
    plausibleShape (jsTrim " a@b.co ").data ∧
    isLikelyEmail (.str "a@bco") = false :=
  ⟨by decide, (c6_is_likely_email_iff_shape.2 " a@b.co ").mp (by decide), by decide⟩

/-- Outcome of `JSON.parse(event.body)` as the handler observes it:
either the parse throws (invalid JSON) or it yields a value whose four
optionally-chained fields (`body?.name`, `body?.email`, `body?.subject`,
`body?.message`) are each a string or some non-string/absent value. -/
inductive RequestBody where
  | badJson
  | fields (name email subject message : JsValue)

/-- Error thrown by the mail transport: an optional numeric
`statusCode` (absent when the field is missing or not a number) and an
optional `message`. -/
structure MailError where
  statusCode : Option Int
  message : Option String

/-- Successful result of `sendMail`: the accepted recipients (the JS
`to` field; `to` is a Lean keyword, hence `toAccepted`) and an optional
transport-assigned message identifier. -/
structure MailSuccess where
  toAccepted : List String
  messageId : Option String

/-- Argument object of the `sendMail` call (contact.js lines 183-192);
`toRecipients` models the JS `to` field (`to` is a Lean keyword). -/
structure SendArgs where
  toRecipients : List String
  subject : String
  text : String
  html : String
  replyTo : String
  headers : List (String × String)

/-- JSON response body of the handler: an error object, an error object
with details, or the success object. -/
inductive RespBody where
  | errMsg (error : String)
  | errDetails (error : String) (details : Option String)
  | success (sent_to : List String) (message_id : Option String)

/-- HTTP-style response of the handler. -/
structure Response where
  statusCode : Int
  body : RespBody

/-- The external collaborators of the handler: the mail-configuration
flag, the team-directory lookup (which may throw) and the mail
transport (which may reject). -/
structure Collab where
  isMailConfigured : Bool
  listTeamMemberEmails : Except String (List String)
  sendMail : SendArgs → Except MailError MailSuccess

/-- JavaScript `value || null` on an optional string (the empty string
is falsy and becomes `null`), as used for `mailResult.messageId || null`
and `error?.message || null`. -/
def jsStrOrNull : Option String → Option String
  | some s => if s = "" then none else some s
  | none => none

/-- Failure-status mapping of the catch block (contact.js lines
204-207): the transport error's own `statusCode` when it is a number
`≥ 400`, else `500`. -/
def errorStatus (e : MailError) : Int :=
  match e.statusCode with
  | some n => if 400 ≤ n then n else 500
  | none => 500

/-- Source `handler` (contact.js lines 112-216), with the ambient
environment, the collaborators, the parsed request body and the ISO
timestamp of `new Date()` as explicit arguments. `Except.error` is an
exception escaping the handler: the only spot not guarded by a
`try`/`catch` in the source is the `resolveContactRecipients()` call
(whose directory lookup may throw). -/
def handler (env : Env) (c : Collab) (body : RequestBody) (now : String) :
    Except String Response :=
  if c.isMailConfigured = false then
    .ok ⟨503, .errMsg "Email service is not configured. Set SMTP credentials to enable contact form notifications."⟩
  else
    match body with
    | .badJson => .ok ⟨400, .errMsg "Invalid JSON"⟩
    | .fields bname bemail bsubject bmessage =>
      let name := normalizeString bname
      let email := normalizeString bemail
      let subject := normalizeString bsubject
      let message := normalizeString bmessage
      if subject = "" then .ok ⟨400, .errMsg "Subject is required"⟩
      else if message = "" then .ok ⟨400, .errMsg "Message is required"⟩
      else if email = "" ∨ isLikelyEmail (.str email) = false then
        .ok ⟨400, .errMsg "A valid email address is required"⟩
      else
        match resolveContactRecipients env c.listTeamMemberEmails with
        | .error err => .error err
        | .ok recipients =>
          if recipients = [] then
            .ok ⟨503, .errMsg "No contact recipients configured. Set CONTACT_FORM_RECIPIENTS or CONTACT_EMAIL in the environment."⟩
          else
            let rendered := formatEmailBody name email subject message now
            match c.sendMail ⟨recipients, safeSubject subject, rendered.text,
                rendered.html, email, [("X-Entity", "contact-form-message")]⟩ with
            | .ok r => .ok ⟨200, .success r.toAccepted (jsStrOrNull r.messageId)⟩
            | .error e =>
              .ok ⟨errorStatus e, .errDetails "Failed to send contact email"
                (jsStrOrNull e.message)⟩

/-- C7: whenever the mail-transport call rejects with error `e` (and the
request otherwise reaches the dispatch step), the handler returns — it
does not rethrow — a response whose status is `errorStatus e` and whose
body carries the fixed error description and the underlying error's
message as details; and `errorStatus` maps a numeric `statusCode ≥ 400`
to itself and everything else to `500`. -/
theorem c7_transport_failure_mapping (env : Env) (c : Collab)
    (bname bemail bsubject bmessage : JsValue) (now : String) (e : MailError)
    (rs : List String)
    (hconf : c.isMailConfigured = true)
    (hsubj : normalizeString bsubject ≠ "")
    (hmsg : normalizeString bmessage ≠ "")
    (hemail : isLikelyEmail (.str (normalizeString bemail)) = true)
    (hres : resolveContactRecipients env c.listTeamMemberEmails = .ok rs)
    (hrs : rs ≠ [])
    (hsend : ∀ args, c.sendMail args = .error e) :
    handler env c (.fields bname bemail bsubject bmessage) now =
      .ok ⟨errorStatus e, .errDetails "Failed to send contact email"
        (jsStrOrNull e.message)⟩ ∧
    (∀ n : Int, e.statusCode = some n → 400 ≤ n → errorStatus e = n) ∧
    (∀ n : Int, e.statusCode = some n → n < 400 → errorStatus e = 500) ∧
    (e.statusCode = none → errorStatus e = 500) := by
  have hne : normalizeString bemail ≠ "" := by
    intro h0
    rw [h0] at hemail
    exact absurd hemail (by decide)
  refine ⟨?_, ?_, ?_, ?_⟩
  · simp [handler, hconf, hsubj, hmsg, hemail, hne, hres, hrs, hsend]
  · intro n hn h400
    simp [errorStatus, hn, h400]
  · intro n hn h400
    have hlt : ¬(400 ≤ n) := by omega
    simp [errorStatus, hn, hlt]
  · intro hn
    simp [errorStatus, hn]

/-- Environment with no recipient configuration at all. -/
def envEmpty : Env := ⟨.undef, .undef, .undef, .undef, none, none⟩

/-- Collaborators whose transport always rejects with a 502 error. -/
def collabSendFails : Collab :=
  ⟨true, .ok [], fun _ => .error ⟨some 502, some "boom"⟩⟩

/-- Witness for C7 at a concrete request: a transport rejecting with
`statusCode 502` yields a 502 response with the fixed description and
the error message as details. -/
theorem c7_witness :
    handler envCase collabSendFails
      (.fields (.str "Ada") (.str "a@b.com") (.str "Hi") (.str "Hello"))
      "2026-01-01T00:00:00.000Z" =
      .ok ⟨errorStatus ⟨some 502, some "boom"⟩,
        .errDetails "Failed to send contact email" (some "boom")⟩ ∧
    errorStatus ⟨some 502, some "boom"⟩ = 502 :=
  have h := c7_transport_failure_mapping envCase collabSendFails
    (.str "Ada") (.str "a@b.com") (.str "Hi") (.str "Hello")
    "2026-01-01T00:00:00.000Z" ⟨some 502, some "boom"⟩ ["foo@bar.com"]
    rfl (by decide) (by decide) (by decide) rfl (by decide) (fun args => rfl)
  ⟨h.1, h.2.1 502 rfl (by decide)⟩

/-- C9: when field validation passes but recipient resolution yields the
empty list, the handler responds `503` with the configuration-error
message, for every possible mail transport — so the transport is never
invoked. -/
theorem c9_no_recipients_503 (env : Env) (c : Collab)
    (bname bemail bsubject bmessage : JsValue) (now : String)
    (hconf : c.isMailConfigured = true)
    (hsubj : normalizeString bsubject ≠ "")
    (hmsg : normalizeString bmessage ≠ "")
    (hemail : isLikelyEmail (.str (normalizeString bemail)) = true)
    (hres : resolveContactRecipients env c.listTeamMemberEmails = .ok []) :
    ∀ send : SendArgs → Except MailError MailSuccess,
      handler env { c with sendMail := send }
        (.fields bname bemail bsubject bmessage) now =
      .ok ⟨503, .errMsg "No contact recipients configured. Set CONTACT_FORM_RECIPIENTS or CONTACT_EMAIL in the environment."⟩ := by
  intro send
  have hne : normalizeString bemail ≠ "" := by
    intro h0
    rw [h0] at hemail
    exact absurd hemail (by decide)
  simp [handler, hconf, hsubj, hmsg, hemail, hne, hres]

/-- Witness for C9: with nothing configured and an empty directory, a
valid submission gets the 503 configuration error even with a transport
that would succeed. -/
theorem c9_witness :
    handler envEmpty
      { (⟨true, .ok [], fun _ => .error ⟨none, none⟩⟩ : Collab) with
        sendMail := fun _ => .ok ⟨["x@y.z"], some "id"⟩ }
      (.fields (.str "Ada") (.str "a@b.com") (.str "Hi") (.str "Hello")) "L" =
      .ok ⟨503, .errMsg "No contact recipients configured. Set CONTACT_FORM_RECIPIENTS or CONTACT_EMAIL in the environment."⟩ :=
  c9_no_recipients_503 envEmpty ⟨true, .ok [], fun _ => .error ⟨none, none⟩⟩
    (.str "Ada") (.str "a@b.com") (.str "Hi") (.str "Hello") "L"
    rfl (by decide) (by decide) (by decide) (by rfl)
    (fun _ => .ok ⟨["x@y.z"], some "id"⟩)

/-- Collaborators whose team-directory lookup throws. -/
def collabDirThrows : Collab :=
  ⟨true, .error "directory unavailable", fun _ => .ok ⟨[], none⟩⟩

/-- Counterexample to C8: with no environment recipients configured and
a team-directory collaborator that throws, a fully valid request makes
the handler itself throw (the `resolveContactRecipients()` call at
contact.js line 159 is outside every `try`/`catch`), so the error
propagates uncaught out of the handler instead of being returned as a
response. -/
theorem c8_counterexample :
    handler envEmpty collabDirThrows
      (.fields (.str "Ada") (.str "a@b.com") (.str "Hi") (.str "Hello"))
      "2026-01-01T00:00:00.000Z" = .error "directory unavailable" := rfl

theorem resolveContactRecipients_ok (env : Env) (dl : List String) :
    ∃ rs, resolveContactRecipients env (.ok dl) = .ok rs := by
  simp only [resolveContactRecipients]
  by_cases h : dedupeEmails (envRecipientTokens env) = []
  · rw [if_pos h]
    by_cases h2 : dedupeEmails dl = []
    · rw [if_pos h2]
      by_cases h3 : normalizeEmailOpt (jsOrStr env.MAIL_FROM env.SMTP_USER) = ""
      · rw [if_pos h3]
        exact ⟨_, rfl⟩
      · rw [if_neg h3]
        exact ⟨_, rfl⟩
    · rw [if_neg h2]
      exact ⟨_, rfl⟩
  · rw [if_neg h]
    exact ⟨_, rfl⟩

/-- C8 (amended): the handler returns a response for every request
whenever the team-directory collaborator does not throw (errors from
JSON parsing are handled before any call, and a rejecting transport is
caught and mapped); but an error thrown by the directory during
recipient resolution is not caught and propagates out of the handler
(see the counterexample). -/
theorem c8_handler_total_unless_directory_throws (env : Env) (c : Collab)
    (body : RequestBody) (now : String) (dl : List String)
    (hdir : c.listTeamMemberEmails = .ok dl) :
    ∃ r, handler env c body now = .ok r := by
  cases body with
  | badJson =>
    simp only [handler]
    by_cases hconf : c.isMailConfigured = false
    · rw [if_pos hconf]
      exact ⟨_, rfl⟩
    · rw [if_neg hconf]
      exact ⟨_, rfl⟩
  | fields bn be bs bm =>
    simp only [handler]
    by_cases hconf : c.isMailConfigured = false
    · rw [if_pos hconf]
      exact ⟨_, rfl⟩
    · rw [if_neg hconf]
      by_cases h1 : normalizeString bs = ""
      · rw [if_pos h1]
        exact ⟨_, rfl⟩
      · rw [if_neg h1]
        by_cases h2 : normalizeString bm = ""
        · rw [if_pos h2]
          exact ⟨_, rfl⟩
        · rw [if_neg h2]
          by_cases h3 : normalizeString be = "" ∨
              isLikelyEmail (.str (normalizeString be)) = false
          · rw [if_pos h3]
            exact ⟨_, rfl⟩
          · rw [if_neg h3]
            rw [hdir]
            obtain ⟨rs, hrs⟩ := resolveContactRecipients_ok env dl
            by_cases h4 : rs = []
            · refine ⟨⟨503, .errMsg "No contact recipients configured. Set CONTACT_FORM_RECIPIENTS or CONTACT_EMAIL in the environment."⟩, ?_⟩
              rw [hrs]
              simp [h4]
            · cases hsm : c.sendMail ⟨rs, safeSubject (normalizeString bs),
                  (formatEmailBody (normalizeString bn) (normalizeString be)
                    (normalizeString bs) (normalizeString bm) now).text,
                  (formatEmailBody (normalizeString bn) (normalizeString be)
                    (normalizeString bs) (normalizeString bm) now).html,
                  normalizeString be, [("X-Entity", "contact-form-message")]⟩ with
              | ok r =>
                refine ⟨⟨200, .success r.toAccepted (jsStrOrNull r.messageId)⟩, ?_⟩
                rw [hrs]
                simp [h4, hsm]
              | error e =>
                refine ⟨⟨errorStatus e, .errDetails "Failed to send contact email"
                  (jsStrOrNull e.message)⟩, ?_⟩
                rw [hrs]
                simp [h4, hsm]

/-- Witness for C8 at a concrete request with a non-throwing directory. -/
theorem c8_witness :
    ∃ r, handler envEmpty ⟨true, .ok ["T@e.am"], fun _ => .ok ⟨["t@e.am"], none⟩⟩
      (.fields (.str "Ada") (.str "a@b.com") (.str "Hi") (.str "Hello")) "L" =
      .ok r :=
  c8_handler_total_unless_directory_throws envEmpty
    ⟨true, .ok ["T@e.am"], fun _ => .ok ⟨["t@e.am"], none⟩⟩
    (.fields (.str "Ada") (.str "a@b.com") (.str "Hi") (.str "Hello")) "L"
    ["T@e.am"] rfl
